import Mathlib

/-!
Verification of the schedule-reconciliation core of the CalendarUpdater
repository: a shallow embedding of the data model (`school.py`,
`code_ninjas.py`), the reconciler (`calendar_updater.py`), the publisher
(`google_api.py`) and the scrape retry logic (`my_studio.py`,
`homebase.py`), together with theorems settling the specification claims.
-/

set_option autoImplicit false

/-- Wall-clock time of day, mirroring Python `datetime.time` as used in this
program (seconds and microseconds are always zero). A value is valid when
`hour < 24` and `minute < 60`; `datetime.time` enforces this at construction,
modelled by `mkTime`. -/
structure Time where
  hour : Nat
  minute : Nat
deriving DecidableEq, Repr

/-- Python `datetime.time(hour=h, minute=m)`: raises `ValueError` (here:
`none`) unless `0 <= h <= 23` and `0 <= m <= 59`. -/
def mkTime (hour minute : Nat) : Option Time :=
  if hour ≤ 23 ∧ minute ≤ 59 then some ⟨hour, minute⟩ else none

/-- Python `datetime.time` comparison: lexicographic on (hour, minute)
(seconds and microseconds are zero throughout this program). `is_scheduled`
combines both times with today's date before comparing `datetime` values;
combining with the same date preserves this order, so the comparison reduces
to `timeLtB` on the times themselves. -/
def timeLtB (a b : Time) : Bool :=
  a.hour < b.hour || (a.hour == b.hour && a.minute < b.minute)

/-- `school.Curriculum` / `code_ninjas.Curriculum`: both modules define this
identical two-value enum. -/
inductive Curriculum where
  | CREATE
  | JR
deriving DecidableEq, Repr

/-- `school.Student`: name plus curriculum tag. -/
structure Student where
  name : String
  curriculum : Curriculum
deriving DecidableEq, Repr

/-- `school.Instructor`: name plus shift start/end times. -/
structure Instructor where
  name : String
  start_time : Time
  end_time : Time
deriving DecidableEq, Repr

/-- `school.Session`: one scheduled time block with students and
instructors. -/
structure Session where
  start_time : Time
  end_time : Time
  students : List Student
  instructors : List Instructor
deriving DecidableEq, Repr

/-- `school.Session.__init__` with `end_time=None` defaulted: the end time is
built by `datetime.time(hour=start_time.hour + 1, minute=start_time.minute)`,
which raises `ValueError` (here: `none`) when `start_time.hour + 1 > 23`.
`students=None` and `instructors=None` default to empty lists. -/
def Session.init (start_time : Time) (end_time : Option Time)
    (students : Option (List Student)) (instructors : Option (List Instructor)) :
    Option Session :=
  match end_time with
  | some e => some ⟨start_time, e, students.getD [], instructors.getD []⟩
  | none =>
    (mkTime (start_time.hour + 1) start_time.minute).map
      (fun e => ⟨start_time, e, students.getD [], instructors.getD []⟩)

/-- `school.Session.create_students`. -/
def Session.create_students (s : Session) : List Student :=
  s.students.filter (fun student => student.curriculum == Curriculum.CREATE)

/-- `school.Session.jr_students`. -/
def Session.jr_students (s : Session) : List Student :=
  s.students.filter (fun student => student.curriculum == Curriculum.JR)

/-- `school.Session.unity_students`. -/
def Session.unity_students (s : Session) (unity_student_names : List String) : List Student :=
  s.students.filter (fun student => student.name ∈ unity_student_names)

/-- `school.Session.focus_students`. -/
def Session.focus_students (s : Session) (focus_student_names : List String) : List Student :=
  s.students.filter (fun student => student.name ∈ focus_student_names)

/-- `school.Session.is_scheduled`: both intervals are combined with today's
date and the resulting `datetime` values compared; with a common date that is
exactly the lexicographic time order `timeLtB`. The test is
`instructor_start_time < end_time and instructor_end_time > start_time`. -/
def Session.is_scheduled (s : Session) (instructor : Instructor) : Bool :=
  timeLtB instructor.start_time s.end_time && timeLtB s.start_time instructor.end_time

/-- `school.get_session_from_time`: first session whose start time equals
`time`, if any (`next((... for ...), None)`). -/
def get_session_from_time (sessions : List Session) (time : Time) : Option Session :=
  sessions.find? (fun session => session.start_time == time)

/-- The in-place effect of `existing_session.students.extend(...)` and
`existing_session.instructors.extend(...)` in `combine_duplicate_sessions`. -/
def extendWith (existing session : Session) : Session :=
  { existing with
      students := existing.students ++ session.students,
      instructors := existing.instructors ++ session.instructors }

/-- Functional rendering of mutating the first session in `combined` whose
start time equals `session.start_time` (the session `get_session_from_time`
returns); appends `session` when there is no such element. -/
def extendFirstMatch : List Session → Session → List Session
  | [], session => [session]
  | existing :: rest, session =>
    if existing.start_time = session.start_time then extendWith existing session :: rest
    else existing :: extendFirstMatch rest session

/-- One iteration of the loop body of
`calendar_updater.combine_duplicate_sessions`: look up an existing session
with the same start time; extend it in place if found, otherwise append. -/
def combineStep (combined : List Session) (session : Session) : List Session :=
  match get_session_from_time combined session.start_time with
  | some _ => extendFirstMatch combined session
  | none => combined ++ [session]

/-- `calendar_updater.combine_duplicate_sessions`. -/
def combine_duplicate_sessions (sessions : List Session) : List Session :=
  sessions.foldl combineStep []

/-- One iteration of the inner loop of
`calendar_updater.add_instructors_to_sessions`:
`if session.is_scheduled(instructor) and instructor not in session.instructors:
session.instructors.append(instructor)`. -/
def assignStep (session : Session) (instructor : Instructor) : Session :=
  if session.is_scheduled instructor ∧ instructor ∉ session.instructors then
    { session with instructors := session.instructors ++ [instructor] }
  else session

/-- `calendar_updater.add_instructors_to_sessions`: the post-state of the
session list after the nested mutation loops. -/
def add_instructors_to_sessions (sessions : List Session) (instructors : List Instructor) :
    List Session :=
  sessions.map (fun session => instructors.foldl assignStep session)

/-- First-occurrence deduplication of a list of times: the start-time order
produced by `combine_duplicate_sessions`. -/
def firstTimes (ts : List Time) : List Time :=
  ts.foldl (fun acc t => if t ∈ acc then acc else acc ++ [t]) []

/-- The students (resp. instructors) an output session of the merge must
carry: the concatenation, in input order, of the rosters of every input
session sharing its start time. -/
def MergedOK (inputs : List Session) (s : Session) : Prop :=
  s.students =
    (inputs.filter (fun x => x.start_time == s.start_time)).flatMap (fun x => x.students) ∧
  s.instructors =
    (inputs.filter (fun x => x.start_time == s.start_time)).flatMap (fun x => x.instructors)

lemma mem_foldl_firstTimes (ts : List Time) :
    ∀ (acc : List Time) (x : Time),
      x ∈ ts.foldl (fun acc t => if t ∈ acc then acc else acc ++ [t]) acc ↔
        x ∈ acc ∨ x ∈ ts := by
  induction ts with
  | nil => simp
  | cons t ts ih =>
    intro acc x
    rw [List.foldl_cons, ih]
    by_cases h : t ∈ acc
    · simp only [if_pos h, List.mem_cons]
      constructor
      · rintro (hx | hx)
        · exact Or.inl hx
        · exact Or.inr (Or.inr hx)
      · rintro (hx | rfl | hx)
        · exact Or.inl hx
        · exact Or.inl h
        · exact Or.inr hx
    · simp only [if_neg h, List.mem_append, List.mem_cons, List.mem_singleton]
      tauto

lemma mem_firstTimes (ts : List Time) (x : Time) : x ∈ firstTimes ts ↔ x ∈ ts := by
  simpa using mem_foldl_firstTimes ts [] x

lemma nodup_foldl_firstTimes (ts : List Time) :
    ∀ acc : List Time, acc.Nodup →
      (ts.foldl (fun acc t => if t ∈ acc then acc else acc ++ [t]) acc).Nodup := by
  induction ts with
  | nil => simp
  | cons t ts ih =>
    intro acc hacc
    rw [List.foldl_cons]
    by_cases h : t ∈ acc
    · rw [if_pos h]
      exact ih acc hacc
    · rw [if_neg h]
      refine ih (acc ++ [t]) ?_
      simp [List.nodup_append, hacc, h]

lemma nodup_firstTimes (ts : List Time) : (firstTimes ts).Nodup :=
  nodup_foldl_firstTimes ts [] List.nodup_nil

lemma firstTimes_concat (ts : List Time) (t : Time) :
    firstTimes (ts ++ [t]) =
      if t ∈ firstTimes ts then firstTimes ts else firstTimes ts ++ [t] := by
  simp [firstTimes, List.foldl_append]

lemma get_session_from_time_eq_none (sessions : List Session) (t : Time) :
    get_session_from_time sessions t = none ↔
      t ∉ sessions.map (fun s => s.start_time) := by
  unfold get_session_from_time
  rw [List.find?_eq_none]
  constructor
  · intro h hmem
    obtain ⟨x, hx, hxt⟩ := List.mem_map.mp hmem
    exact h x hx (by simp [hxt])
  · intro h x hx hbeq
    exact h (List.mem_map.mpr ⟨x, hx, by simpa using hbeq⟩)

lemma extendWith_start_time (existing session : Session) :
    (extendWith existing session).start_time = existing.start_time := rfl

lemma extendFirstMatch_of_not_mem (l : List Session) (s : Session)
    (h : s.start_time ∉ l.map (fun x => x.start_time)) :
    extendFirstMatch l s = l ++ [s] := by
  induction l with
  | nil => rfl
  | cons e rest ih =>
    simp only [List.map_cons, List.mem_cons] at h
    push_neg at h
    rw [extendFirstMatch, if_neg (fun hc => h.1 hc.symm), ih h.2]
    rfl

lemma combineStep_eq_extendFirstMatch (l : List Session) (s : Session) :
    combineStep l s = extendFirstMatch l s := by
  unfold combineStep
  cases hfind : get_session_from_time l s.start_time with
  | none =>
    rw [extendFirstMatch_of_not_mem l s ((get_session_from_time_eq_none l s.start_time).mp hfind)]
  | some e => rfl

lemma map_start_time_extendFirstMatch (l : List Session) (s : Session) :
    (extendFirstMatch l s).map (fun x => x.start_time) =
      if s.start_time ∈ l.map (fun x => x.start_time) then l.map (fun x => x.start_time)
      else l.map (fun x => x.start_time) ++ [s.start_time] := by
  induction l with
  | nil => simp [extendFirstMatch]
  | cons e rest ih =>
    by_cases h : e.start_time = s.start_time
    · simp [extendFirstMatch, h, extendWith]
    · rw [extendFirstMatch, if_neg h, List.map_cons, ih, List.map_cons]
      by_cases hm : s.start_time ∈ rest.map (fun x => x.start_time) <;>
        simp [hm, Ne.symm h]

lemma extendFirstMatch_split (acc : List Session) (x : Session)
    (h : x.start_time ∈ acc.map (fun y => y.start_time)) :
    ∃ pre e post,
      acc = pre ++ e :: post ∧
      e.start_time = x.start_time ∧
      (∀ y ∈ pre, y.start_time ≠ x.start_time) ∧
      extendFirstMatch acc x = pre ++ extendWith e x :: post := by
  induction acc with
  | nil => simp at h
  | cons a rest ih =>
    by_cases ha : a.start_time = x.start_time
    · exact ⟨[], a, rest, by simp, ha, by simp, by simp [extendFirstMatch, ha]⟩
    · have hrest : x.start_time ∈ rest.map (fun y => y.start_time) := by
        simpa [Ne.symm ha] using h
      obtain ⟨pre, e, post, h1, h2, h3, h4⟩ := ih hrest
      refine ⟨a :: pre, e, post, by simp [h1], h2, ?_, ?_⟩
      · intro y hy
        rcases List.mem_cons.mp hy with hy | hy
        · simpa [hy] using ha
        · exact h3 y hy
      · simp [extendFirstMatch, ha, h4]

/-- Invariant of the merge loop: after processing the prefix `processed` of
the input, the accumulator lists the distinct start times in first-occurrence
order and every accumulated session carries the concatenated rosters of all
processed sessions with its start time. -/
def InvMerge (processed acc : List Session) : Prop :=
  acc.map (fun s => s.start_time) = firstTimes (processed.map (fun s => s.start_time)) ∧
  ∀ s ∈ acc, MergedOK processed s

lemma filter_time_eq_nil (l : List Session) (t : Time)
    (h : t ∉ l.map (fun s => s.start_time)) :
    l.filter (fun x => x.start_time == t) = [] := by
  rw [List.filter_eq_nil_iff]
  intro x hx hbeq
  exact h (List.mem_map.mpr ⟨x, hx, by simpa using hbeq⟩)

lemma mergedOK_concat_ne (processed : List Session) (x s : Session)
    (hne : x.start_time ≠ s.start_time) (h : MergedOK processed s) :
    MergedOK (processed ++ [x]) s := by
  obtain ⟨h1, h2⟩ := h
  have hfil : (processed ++ [x]).filter (fun y => y.start_time == s.start_time) =
      processed.filter (fun y => y.start_time == s.start_time) := by
    rw [List.filter_append]
    simp [hne]
  exact ⟨by rw [hfil]; exact h1, by rw [hfil]; exact h2⟩

lemma invMerge_step (processed acc : List Session) (x : Session)
    (h : InvMerge processed acc) : InvMerge (processed ++ [x]) (combineStep acc x) := by
  obtain ⟨htimes, hmerged⟩ := h
  rw [combineStep_eq_extendFirstMatch]
  by_cases hmem : x.start_time ∈ acc.map (fun s => s.start_time)
  · obtain ⟨pre, e, post, hsplit, het, hpre, hres⟩ := extendFirstMatch_split acc x hmem
    have hnodup : (acc.map (fun s => s.start_time)).Nodup := by
      rw [htimes]; exact nodup_firstTimes _
    constructor
    · rw [map_start_time_extendFirstMatch, if_pos hmem, List.map_append]
      simp only [List.map_cons, List.map_nil]
      rw [firstTimes_concat, if_pos (htimes ▸ hmem), htimes]
    · intro s hs
      rw [hres] at hs
      rcases List.mem_append.mp hs with hs | hs
      · have hsacc : s ∈ acc := by rw [hsplit]; exact List.mem_append_left _ hs
        exact mergedOK_concat_ne processed x s
          (fun hc => hpre s hs (by rw [← hc])) (hmerged s hsacc)
      · rcases List.mem_cons.mp hs with rfl | hs
        · have heacc : e ∈ acc := by
            rw [hsplit]; exact List.mem_append_right _ (List.mem_cons_self _ _)
          obtain ⟨h1, h2⟩ := hmerged e heacc
          have hfil : (processed ++ [x]).filter
              (fun y => y.start_time == (extendWith e x).start_time) =
              processed.filter (fun y => y.start_time == e.start_time) ++ [x] := by
            rw [extendWith_start_time, List.filter_append]
            simp [het]
          constructor
          · rw [hfil, List.flatMap_append]
            simp [extendWith, h1]
          · rw [hfil, List.flatMap_append]
            simp [extendWith, h2]
        · have hsacc : s ∈ acc := by
            rw [hsplit]
            exact List.mem_append_right _ (List.mem_cons_of_mem _ hs)
          have hsne : s.start_time ≠ x.start_time := by
            intro hc
            rw [hsplit, List.map_append, List.map_cons] at hnodup
            have := (List.nodup_append.mp hnodup).2.1
            rw [List.nodup_cons] at this
            exact this.1 (List.mem_map.mpr ⟨s, hs, by rw [hc, ← het]⟩)
          exact mergedOK_concat_ne processed x s (fun hc => hsne hc.symm) (hmerged s hsacc)
  · rw [extendFirstMatch_of_not_mem acc x hmem]
    have hnotproc : x.start_time ∉ processed.map (fun s => s.start_time) := by
      intro hc
      exact hmem (by rw [htimes]; exact (mem_firstTimes _ _).mpr hc)
    constructor
    · rw [List.map_append, List.map_append]
      simp only [List.map_cons, List.map_nil]
      rw [firstTimes_concat, if_neg (fun hc => hmem (htimes.symm ▸ hc)), htimes]
    · intro s hs
      rcases List.mem_append.mp hs with hs | hs
      · have hsne : s.start_time ≠ x.start_time := by
          intro hc
          exact hmem (List.mem_map.mpr ⟨s, hs, hc⟩)
        exact mergedOK_concat_ne processed x s (fun hc => hsne hc.symm) (hmerged s hs)
      · rcases List.mem_singleton.mp hs with rfl
        have hproc : processed.filter (fun y => y.start_time == s.start_time) = [] :=
          filter_time_eq_nil processed s.start_time hnotproc
        constructor
        · rw [List.filter_append, hproc]
          simp
        · rw [List.filter_append, hproc]
          simp

lemma invMerge_foldl : ∀ (l processed acc : List Session), InvMerge processed acc →
    InvMerge (processed ++ l) (l.foldl combineStep acc) := by
  intro l
  induction l with
  | nil => intro processed acc h; simpa using h
  | cons x l ih =>
    intro processed acc h
    rw [List.foldl_cons]
    have := ih (processed ++ [x]) (combineStep acc x) (invMerge_step processed acc x h)
    simpa using this

lemma invMerge_combine (sessions : List Session) :
    InvMerge sessions (combine_duplicate_sessions sessions) := by
  have h0 : InvMerge [] [] := ⟨rfl, by intro s hs; cases hs⟩
  have := invMerge_foldl sessions [] [] h0
  simpa [combine_duplicate_sessions] using this

lemma foldl_combineStep_nodup : ∀ (l acc : List Session),
    (acc.map (fun s => s.start_time) ++ l.map (fun s => s.start_time)).Nodup →
    l.foldl combineStep acc = acc ++ l := by
  intro l
  induction l with
  | nil => intro acc _; simp
  | cons x l ih =>
    intro acc h
    rw [List.map_cons, List.append_cons] at h
    have h1 : (acc.map (fun s => s.start_time) ++ [x.start_time]).Nodup :=
      (List.nodup_append.mp h).1
    obtain ⟨hA, hB, hdisj⟩ := List.nodup_append.mp h1
    have hx : x.start_time ∉ acc.map (fun s => s.start_time) :=
      fun hc => hdisj hc (List.mem_singleton_self _)
    rw [List.foldl_cons, combineStep_eq_extendFirstMatch,
      extendFirstMatch_of_not_mem acc x hx, ih (acc ++ [x]) (by simpa using h)]
    simp

/-- C1: `combine_duplicate_sessions` returns its input sessions in
first-occurrence order of start times; each retained session carries the
concatenation (duplicates allowed, input order) of the student and instructor
lists of every input session sharing its exact start time; inputs with
pairwise-distinct start times come back with unchanged count and order; and
the concrete 9:00 / 10:00 / 9:00 example merges to two entries, the 9:00
pair combined and 10:00 kept separate. -/
theorem combine_duplicate_sessions_spec :
    (∀ sessions : List Session,
      (combine_duplicate_sessions sessions).map (fun s => s.start_time) =
        firstTimes (sessions.map (fun s => s.start_time)) ∧
      (∀ s ∈ combine_duplicate_sessions sessions, MergedOK sessions s) ∧
      ((sessions.map (fun s => s.start_time)).Nodup →
        combine_duplicate_sessions sessions = sessions)) ∧
    combine_duplicate_sessions
      [⟨⟨9, 0⟩, ⟨10, 0⟩, [⟨"Alice", Curriculum.CREATE⟩], []⟩,
       ⟨⟨10, 0⟩, ⟨11, 0⟩, [⟨"Bob", Curriculum.CREATE⟩], []⟩,
       ⟨⟨9, 0⟩, ⟨10, 0⟩, [⟨"Carol", Curriculum.JR⟩], []⟩] =
      [⟨⟨9, 0⟩, ⟨10, 0⟩, [⟨"Alice", Curriculum.CREATE⟩, ⟨"Carol", Curriculum.JR⟩], []⟩,
       ⟨⟨10, 0⟩, ⟨11, 0⟩, [⟨"Bob", Curriculum.CREATE⟩], []⟩] := by
  constructor
  · intro sessions
    obtain ⟨h1, h2⟩ := invMerge_combine sessions
    refine ⟨h1, h2, ?_⟩
    intro hnd
    have := foldl_combineStep_nodup sessions [] (by simpa using hnd)
    simpa [combine_duplicate_sessions] using this
  · rfl

/-- Witness for C1: the distinct-start-times clause applied to a concrete
two-session input. -/
theorem combine_duplicate_sessions_spec_witness :
    combine_duplicate_sessions
      [⟨⟨9, 0⟩, ⟨10, 0⟩, [⟨"Alice", Curriculum.CREATE⟩], []⟩,
       ⟨⟨10, 0⟩, ⟨11, 0⟩, [⟨"Bob", Curriculum.CREATE⟩], []⟩] =
      [⟨⟨9, 0⟩, ⟨10, 0⟩, [⟨"Alice", Curriculum.CREATE⟩], []⟩,
       ⟨⟨10, 0⟩, ⟨11, 0⟩, [⟨"Bob", Curriculum.CREATE⟩], []⟩] :=
  (combine_duplicate_sessions_spec.1
    [⟨⟨9, 0⟩, ⟨10, 0⟩, [⟨"Alice", Curriculum.CREATE⟩], []⟩,
     ⟨⟨10, 0⟩, ⟨11, 0⟩, [⟨"Bob", Curriculum.CREATE⟩], []⟩]).2.2 (by decide)

/-- The overlap test of `Session.is_scheduled` as a function of the entry
interval alone: `instructor_start < entry_end and instructor_end > entry_start`
(strict on both sides, so boundary touches do not count). -/
def overlapB (entry_start entry_end : Time) (instructor : Instructor) : Bool :=
  timeLtB instructor.start_time entry_end && timeLtB entry_start instructor.end_time

lemma is_scheduled_eq_overlapB (s : Session) (i : Instructor) :
    s.is_scheduled i = overlapB s.start_time s.end_time i := rfl

/-- The instructor-list state threaded through the inner loop of
`add_instructors_to_sessions`, for a session with the given fixed interval. -/
def assignList (entry_start entry_end : Time) (acc l : List Instructor) : List Instructor :=
  l.foldl
    (fun acc i => if overlapB entry_start entry_end i ∧ i ∉ acc then acc ++ [i] else acc) acc

lemma assignStep_start_time (s : Session) (i : Instructor) :
    (assignStep s i).start_time = s.start_time := by
  unfold assignStep
  split <;> rfl

lemma assignStep_end_time (s : Session) (i : Instructor) :
    (assignStep s i).end_time = s.end_time := by
  unfold assignStep
  split <;> rfl

lemma assignStep_students (s : Session) (i : Instructor) :
    (assignStep s i).students = s.students := by
  unfold assignStep
  split <;> rfl

lemma assignStep_instructors (s : Session) (i : Instructor) :
    (assignStep s i).instructors =
      if overlapB s.start_time s.end_time i ∧ i ∉ s.instructors then
        s.instructors ++ [i]
      else s.instructors := by
  unfold assignStep
  split
  · next h => exact (if_pos h).symm
  · next h => exact (if_neg h).symm

lemma foldl_assignStep (l : List Instructor) :
    ∀ s : Session, l.foldl assignStep s =
      { s with instructors := assignList s.start_time s.end_time s.instructors l } := by
  induction l with
  | nil => intro s; rfl
  | cons i l ih =>
    intro s
    rw [List.foldl_cons, ih (assignStep s i), assignStep_start_time, assignStep_end_time,
      assignStep_students, assignStep_instructors]
    unfold assignList
    rw [List.foldl_cons]

lemma mem_assignList (entry_start entry_end : Time) :
    ∀ (l acc : List Instructor) (x : Instructor),
      x ∈ assignList entry_start entry_end acc l ↔
        x ∈ acc ∨ (x ∈ l ∧ overlapB entry_start entry_end x = true) := by
  intro l
  induction l with
  | nil => simp [assignList]
  | cons i l ih =>
    intro acc x
    unfold assignList at ih ⊢
    rw [List.foldl_cons]
    by_cases h : overlapB entry_start entry_end i ∧ i ∉ acc
    · rw [if_pos h, ih]
      simp only [List.mem_append, List.mem_cons, List.not_mem_nil, or_false]
      constructor
      · rintro ((hx | rfl) | ⟨hx, hov⟩)
        · exact Or.inl hx
        · exact Or.inr ⟨Or.inl rfl, h.1⟩
        · exact Or.inr ⟨Or.inr hx, hov⟩
      · rintro (hx | ⟨rfl | hx, hov⟩)
        · exact Or.inl (Or.inl hx)
        · exact Or.inl (Or.inr rfl)
        · exact Or.inr ⟨hx, hov⟩
    · rw [if_neg h, ih]
      simp only [List.mem_cons]
      constructor
      · rintro (hx | ⟨hx, hov⟩)
        · exact Or.inl hx
        · exact Or.inr ⟨Or.inr hx, hov⟩
      · rintro (hx | ⟨rfl | hx, hov⟩)
        · exact Or.inl hx
        · rcases not_and_or.mp h with hc | hc
          · exact absurd hov hc
          · exact Or.inl (not_not.mp hc)
        · exact Or.inr ⟨hx, hov⟩

lemma assignList_append (entry_start entry_end : Time) :
    ∀ (l acc : List Instructor),
      ∃ appended : List Instructor,
        assignList entry_start entry_end acc l = acc ++ appended ∧
        appended.Sublist l ∧ appended.Nodup ∧
        ∀ x ∈ appended, overlapB entry_start entry_end x = true ∧ x ∉ acc := by
  intro l
  induction l with
  | nil =>
    intro acc
    exact ⟨[], by simp [assignList], List.nil_sublist _, List.nodup_nil, by simp⟩
  | cons i l ih =>
    intro acc
    by_cases h : overlapB entry_start entry_end i ∧ i ∉ acc
    · obtain ⟨appended, h1, h2, h3, h4⟩ := ih (acc ++ [i])
      refine ⟨i :: appended, ?_, List.Sublist.cons₂ i h2, ?_, ?_⟩
      · unfold assignList at h1 ⊢
        rw [List.foldl_cons, if_pos h, h1, List.append_assoc]
        rfl
      · refine List.nodup_cons.mpr ⟨fun hc => ?_, h3⟩
        exact (h4 i hc).2 (List.mem_append_right _ (List.mem_singleton_self i))
      · intro x hx
        rcases List.mem_cons.mp hx with rfl | hx
        · exact ⟨h.1, h.2⟩
        · exact ⟨(h4 x hx).1, fun hc => (h4 x hx).2 (List.mem_append_left _ hc)⟩
    · obtain ⟨appended, h1, h2, h3, h4⟩ := ih acc
      refine ⟨appended, ?_, h2.cons i, h3, h4⟩
      unfold assignList at h1 ⊢
      rw [List.foldl_cons, if_neg h, h1]

lemma assignList_no_new (entry_start entry_end : Time) :
    ∀ (l acc : List Instructor),
      (∀ x ∈ l, overlapB entry_start entry_end x = true → x ∈ acc) →
      assignList entry_start entry_end acc l = acc := by
  intro l
  induction l with
  | nil => intro acc _; rfl
  | cons i l ih =>
    intro acc h
    unfold assignList
    rw [List.foldl_cons]
    have hcond : ¬(overlapB entry_start entry_end i ∧ i ∉ acc) := by
      rintro ⟨hov, hnm⟩
      exact hnm (h i (List.mem_cons_self i l) hov)
    rw [if_neg hcond]
    exact ih acc (fun x hx => h x (List.mem_cons_of_mem i hx))

lemma assignList_idem (entry_start entry_end : Time) (l acc : List Instructor) :
    assignList entry_start entry_end (assignList entry_start entry_end acc l) l =
      assignList entry_start entry_end acc l :=
  assignList_no_new entry_start entry_end l _
    (fun x hx hov => (mem_assignList entry_start entry_end l acc x).mpr (Or.inr ⟨hx, hov⟩))

/-- C2: `add_instructors_to_sessions` appends an instructor to a session
exactly when the instructor's shift strictly overlaps the session's interval
(`instructor_start < session_end` and `instructor_end > session_start`) and
the instructor is not already in the session's instructor list; appends follow
the input instructor order (the appended block is a sublist of the input);
shift [9:00,13:00) overlapping entry [9:30,10:30) is assigned and shift
[8:00,9:00) merely touching entry [9:00,10:00) is not. -/
theorem add_instructors_overlap_spec :
    (∀ (sessions : List Session) (instructors : List Instructor),
      add_instructors_to_sessions sessions instructors =
        sessions.map (fun s =>
          { s with instructors := assignList s.start_time s.end_time s.instructors instructors })) ∧
    (∀ (s : Session) (instructors : List Instructor) (i : Instructor),
      i ∈ (instructors.foldl assignStep s).instructors ↔
        i ∈ s.instructors ∨ (i ∈ instructors ∧ s.is_scheduled i = true)) ∧
    (∀ (s : Session) (instructors : List Instructor),
      ∃ appended : List Instructor,
        (instructors.foldl assignStep s).instructors = s.instructors ++ appended ∧
        appended.Sublist instructors ∧
        ∀ i ∈ appended, s.is_scheduled i = true ∧ i ∉ s.instructors) ∧
    (Session.is_scheduled ⟨⟨9, 30⟩, ⟨10, 30⟩, [], []⟩ ⟨"A", ⟨9, 0⟩, ⟨13, 0⟩⟩ = true ∧
      add_instructors_to_sessions [⟨⟨9, 30⟩, ⟨10, 30⟩, [], []⟩] [⟨"A", ⟨9, 0⟩, ⟨13, 0⟩⟩] =
        [⟨⟨9, 30⟩, ⟨10, 30⟩, [], [⟨"A", ⟨9, 0⟩, ⟨13, 0⟩⟩]⟩]) ∧
    (Session.is_scheduled ⟨⟨9, 0⟩, ⟨10, 0⟩, [], []⟩ ⟨"B", ⟨8, 0⟩, ⟨9, 0⟩⟩ = false ∧
      add_instructors_to_sessions [⟨⟨9, 0⟩, ⟨10, 0⟩, [], []⟩] [⟨"B", ⟨8, 0⟩, ⟨9, 0⟩⟩] =
        [⟨⟨9, 0⟩, ⟨10, 0⟩, [], []⟩]) := by
  refine ⟨?_, ?_, ?_, ⟨rfl, rfl⟩, ⟨rfl, rfl⟩⟩
  · intro sessions instructors
    unfold add_instructors_to_sessions
    exact List.map_congr_left (fun s _ => foldl_assignStep instructors s)
  · intro s instructors i
    rw [foldl_assignStep]
    exact mem_assignList s.start_time s.end_time instructors s.instructors i
  · intro s instructors
    obtain ⟨appended, h1, h2, h3, h4⟩ :=
      assignList_append s.start_time s.end_time instructors s.instructors
    refine ⟨appended, ?_, h2, fun i hi => ⟨(h4 i hi).1, (h4 i hi).2⟩⟩
    rw [foldl_assignStep]
    exact h1

/-- C3: staff assignment is idempotent — a second run of
`add_instructors_to_sessions` with the same instructor list changes nothing —
and within a single run the block appended to a session's instructor list has
no duplicates and is disjoint from the instructors already present, so no
instructor is appended twice to the same session. -/
theorem add_instructors_idempotent_spec :
    (∀ (sessions : List Session) (instructors : List Instructor),
      add_instructors_to_sessions (add_instructors_to_sessions sessions instructors)
          instructors =
        add_instructors_to_sessions sessions instructors) ∧
    (∀ (s : Session) (instructors : List Instructor),
      ∃ appended : List Instructor,
        (instructors.foldl assignStep s).instructors = s.instructors ++ appended ∧
        appended.Nodup ∧ ∀ i ∈ appended, i ∉ s.instructors) := by
  constructor
  · intro sessions instructors
    unfold add_instructors_to_sessions
    rw [List.map_map]
    refine List.map_congr_left (fun s _ => ?_)
    show List.foldl assignStep (List.foldl assignStep s instructors) instructors =
      List.foldl assignStep s instructors
    rw [foldl_assignStep, foldl_assignStep]
    exact congrArg _ (assignList_idem s.start_time s.end_time instructors s.instructors)
  · intro s instructors
    obtain ⟨appended, h1, _, h3, h4⟩ :=
      assignList_append s.start_time s.end_time instructors s.instructors
    refine ⟨appended, ?_, h3, fun i hi => (h4 i hi).2⟩
    rw [foldl_assignStep]
    exact h1

/-- C10: `add_instructors_to_sessions` preserves the session list's length and
order and each session's start time, end time and student roster; the only
field it changes is the instructor list, which only gains elements (the old
list stays as a prefix). -/
theorem add_instructors_frame_spec :
    ∀ (sessions : List Session) (instructors : List Instructor),
      (add_instructors_to_sessions sessions instructors).length = sessions.length ∧
      ∀ (i : Nat) (s t : Session), sessions[i]? = some s →
        (add_instructors_to_sessions sessions instructors)[i]? = some t →
        t.start_time = s.start_time ∧ t.end_time = s.end_time ∧
        t.students = s.students ∧
        ∃ appended, t.instructors = s.instructors ++ appended := by
  intro sessions instructors
  constructor
  · unfold add_instructors_to_sessions
    exact List.length_map _ _
  · intro i s t hs ht
    unfold add_instructors_to_sessions at ht
    rw [List.getElem?_map, hs] at ht
    obtain rfl : List.foldl assignStep s instructors = t := by
      simpa using ht
    rw [foldl_assignStep]
    obtain ⟨appended, h1, _, _, _⟩ :=
      assignList_append s.start_time s.end_time instructors s.instructors
    exact ⟨rfl, rfl, rfl, appended, h1⟩

/-- Witness for C10: the frame condition applied at index 0 of a concrete
one-session, one-instructor input. -/
theorem add_instructors_frame_witness :
    (⟨⟨9, 30⟩, ⟨10, 30⟩, [], [⟨"A", ⟨9, 0⟩, ⟨13, 0⟩⟩]⟩ : Session).start_time =
        (⟨⟨9, 30⟩, ⟨10, 30⟩, [], []⟩ : Session).start_time ∧
      (⟨⟨9, 30⟩, ⟨10, 30⟩, [], [⟨"A", ⟨9, 0⟩, ⟨13, 0⟩⟩]⟩ : Session).end_time =
        (⟨⟨9, 30⟩, ⟨10, 30⟩, [], []⟩ : Session).end_time ∧
      (⟨⟨9, 30⟩, ⟨10, 30⟩, [], [⟨"A", ⟨9, 0⟩, ⟨13, 0⟩⟩]⟩ : Session).students =
        (⟨⟨9, 30⟩, ⟨10, 30⟩, [], []⟩ : Session).students ∧
      ∃ appended,
        (⟨⟨9, 30⟩, ⟨10, 30⟩, [], [⟨"A", ⟨9, 0⟩, ⟨13, 0⟩⟩]⟩ : Session).instructors =
          (⟨⟨9, 30⟩, ⟨10, 30⟩, [], []⟩ : Session).instructors ++ appended :=
  (add_instructors_frame_spec [⟨⟨9, 30⟩, ⟨10, 30⟩, [], []⟩]
      [⟨"A", ⟨9, 0⟩, ⟨13, 0⟩⟩]).2 0
    ⟨⟨9, 30⟩, ⟨10, 30⟩, [], []⟩
    ⟨⟨9, 30⟩, ⟨10, 30⟩, [], [⟨"A", ⟨9, 0⟩, ⟨13, 0⟩⟩]⟩ rfl (by decide)

/-- `code_ninjas.Ninja`: a Code Ninjas student, structurally identical to
`school.Student`. -/
structure Ninja where
  name : String
  curriculum : Curriculum
deriving DecidableEq, Repr

/-- `code_ninjas.Sensei`: a Code Ninjas sensei, structurally identical to
`school.Instructor`. -/
structure Sensei where
  name : String
  start_time : Time
  end_time : Time
deriving DecidableEq, Repr

/-- `code_ninjas.CodeNinjasClass`: one scheduled class with students and
senseis, structurally identical to `school.Session`. -/
structure CodeNinjasClass where
  start_time : Time
  end_time : Time
  students : List Ninja
  senseis : List Sensei
deriving DecidableEq, Repr

/-- `code_ninjas.CodeNinjasClass.__init__`: same defaulting logic as
`school.Session.__init__`, including `ValueError` (here: `none`) when the
defaulted end hour `start_time.hour + 1` exceeds 23. -/
def CodeNinjasClass.init (start_time : Time) (end_time : Option Time)
    (students : Option (List Ninja)) (senseis : Option (List Sensei)) :
    Option CodeNinjasClass :=
  match end_time with
  | some e => some ⟨start_time, e, students.getD [], senseis.getD []⟩
  | none =>
    (mkTime (start_time.hour + 1) start_time.minute).map
      (fun e => ⟨start_time, e, students.getD [], senseis.getD []⟩)

/-- `code_ninjas.CodeNinjasClass.create_students`. -/
def CodeNinjasClass.create_students (c : CodeNinjasClass) : List Ninja :=
  c.students.filter (fun student => student.curriculum == Curriculum.CREATE)

/-- `code_ninjas.CodeNinjasClass.jr_students`. -/
def CodeNinjasClass.jr_students (c : CodeNinjasClass) : List Ninja :=
  c.students.filter (fun student => student.curriculum == Curriculum.JR)

/-- `code_ninjas.CodeNinjasClass.unity_students`. -/
def CodeNinjasClass.unity_students (c : CodeNinjasClass)
    (unity_student_names : List String) : List Ninja :=
  c.students.filter (fun student => student.name ∈ unity_student_names)

/-- `code_ninjas.CodeNinjasClass.focus_students`. -/
def CodeNinjasClass.focus_students (c : CodeNinjasClass)
    (focus_student_names : List String) : List Ninja :=
  c.students.filter (fun student => student.name ∈ focus_student_names)

/-- Two-digit zero padding as produced by `strftime` fields. -/
def pad2 (n : Nat) : String :=
  if n < 10 then "0" ++ toString n else toString n

/-- `strftime("%I")`: hour on the 12-hour clock, zero padded (hour 0 prints
as 12). -/
def fmtHour12 (t : Time) : String :=
  pad2 (if t.hour % 12 = 0 then 12 else t.hour % 12)

/-- `strftime("%p")`: AM for hours 0-11, PM for hours 12-23. -/
def fmtPeriod (t : Time) : String :=
  if t.hour < 12 then "AM" else "PM"

/-- `strftime("%I:%M%p")`, the format used for event summaries and sensei
shift ranges. -/
def fmtIMp (t : Time) : String :=
  fmtHour12 t ++ ":" ++ pad2 t.minute ++ fmtPeriod t

/-- `strftime("%H:%M")`, the format used for event start/end date-times. -/
def fmtHM (t : Time) : String :=
  pad2 t.hour ++ ":" ++ pad2 t.minute

/-- The sensei lines of the description:
`f"{sensei.name} ({sensei.start_time.strftime('%I:%M%p')} - {sensei.end_time.strftime('%I:%M%p')})"`. -/
def sensei_details (senseis : List Sensei) : List String :=
  senseis.map (fun sensei =>
    sensei.name ++ " (" ++ fmtIMp sensei.start_time ++ " - " ++ fmtIMp sensei.end_time ++ ")")

/-- The description string built for one class inside
`google_api.add_classes_to_calendar`: optional Sensei, Unity, JR and Focus
blocks (each only when its list is non-empty, Python truthiness), then the
unconditional IMPACT block listing the CREATE students that are in neither
`unity_students` nor `focus_students`. -/
def buildDescription (unity_student_names focus_student_names : List String)
    (c : CodeNinjasClass) : String :=
  let description := ""
  let description :=
    if c.senseis ≠ [] then
      description ++ "Sensei:\n" ++ String.intercalate "\n" (sensei_details c.senseis) ++ "\n\n"
    else description
  let unity_students := c.unity_students unity_student_names
  let description :=
    if unity_students ≠ [] then
      description ++ "Unity:\n" ++
        String.intercalate "\n" (unity_students.map (fun student => student.name)) ++ "\n\n"
    else description
  let jr_students := c.jr_students
  let description :=
    if jr_students ≠ [] then
      description ++ "JR:\n" ++
        String.intercalate "\n" (jr_students.map (fun student => student.name)) ++ "\n\n"
    else description
  let focus_students := c.focus_students focus_student_names
  let description :=
    if focus_students ≠ [] then
      description ++ "Focus:\n" ++
        String.intercalate "\n" (focus_students.map (fun student => student.name)) ++ "\n\n"
    else description
  let impact_students :=
    (c.create_students.filter
      (fun student => student ∉ unity_students ∧ student ∉ focus_students)).map
      (fun student => student.name)
  description ++ "IMPACT:\n" ++ String.intercalate "\n" impact_students

/-- The body of the calendar event dictionary built per class (summary,
description, start/end date-times with the fixed `America/Vancouver` time
zone). -/
structure Event where
  summary : String
  description : String
  start_dateTime : String
  start_timeZone : String
  end_dateTime : String
  end_timeZone : String
deriving DecidableEq, Repr

/-- The event built for one class inside `google_api.add_classes_to_calendar`:
summary `f"{start.strftime('%I:%M%p')} - {create_count} | {jr_count}"` and
start/end `f"{today}T{time.strftime('%H:%M')}:00"` in `America/Vancouver`. -/
def buildEvent (today : String) (unity_student_names focus_student_names : List String)
    (c : CodeNinjasClass) : Event :=
  { summary := fmtIMp c.start_time ++ " - " ++ toString c.create_students.length ++ " | " ++
      toString c.jr_students.length,
    description := buildDescription unity_student_names focus_student_names c,
    start_dateTime := today ++ "T" ++ fmtHM c.start_time ++ ":00",
    start_timeZone := "America/Vancouver",
    end_dateTime := today ++ "T" ++ fmtHM c.end_time ++ ":00",
    end_timeZone := "America/Vancouver" }

/-- The per-class insert loop of `google_api.add_classes_to_calendar`, with an
oracle saying whether the `k`-th `events().insert(...).execute()` call raises
`HttpError`. On the first failing insert the `except HttpError` handler runs
(the flag turns `true`), the loop is abandoned, and no further events are
created; events inserted earlier remain. The function always returns — the
handler prints and swallows the error. -/
def insertEvents (fail : Nat → Bool) (today : String)
    (unity_student_names focus_student_names : List String) :
    List CodeNinjasClass → Nat → List Event × Bool
  | [], _ => ([], false)
  | c :: rest, k =>
    if fail k then ([], true)
    else
      let r := insertEvents fail today unity_student_names focus_student_names rest (k + 1)
      (buildEvent today unity_student_names focus_student_names c :: r.fst, r.snd)

/-- `google_api.add_classes_to_calendar`: returns the list of events actually
created and whether an `HttpError` was caught (it is never re-raised). -/
def add_classes_to_calendar (fail : Nat → Bool) (today : String)
    (unity_student_names focus_student_names : List String)
    (classes : List CodeNinjasClass) : List Event × Bool :=
  insertEvents fail today unity_student_names focus_student_names classes 0

/-- Index of the first failing insert among `len` calls starting at call
number `start` (equals `len` when none fails). -/
def firstFailIdx (fail : Nat → Bool) : Nat → Nat → Nat
  | _, 0 => 0
  | start, len + 1 => if fail start then 0 else firstFailIdx fail (start + 1) len + 1

lemma insertEvents_spec (fail : Nat → Bool) (today : String)
    (unity_student_names focus_student_names : List String) :
    ∀ (classes : List CodeNinjasClass) (k : Nat),
      insertEvents fail today unity_student_names focus_student_names classes k =
        ((classes.take (firstFailIdx fail k classes.length)).map
            (buildEvent today unity_student_names focus_student_names),
          decide (firstFailIdx fail k classes.length < classes.length)) := by
  intro classes
  induction classes with
  | nil => intro k; simp [insertEvents, firstFailIdx]
  | cons c rest ih =>
    intro k
    by_cases h : fail k
    · simp [insertEvents, firstFailIdx, h]
    · simp [insertEvents, firstFailIdx, h, ih (k + 1), Nat.succ_lt_succ_iff]

lemma firstFailIdx_of_no_fail : ∀ (len start : Nat), firstFailIdx (fun _ => false) start len = len := by
  intro len
  induction len with
  | zero => intro start; rfl
  | succ n ih =>
    intro start
    rw [firstFailIdx, if_neg (by simp)]
    rw [ih (start + 1)]

lemma impact_filter_by_names (c : CodeNinjasClass) (unity focus : List String) :
    c.create_students.filter
      (fun student => student ∉ c.unity_students unity ∧ student ∉ c.focus_students focus) =
    c.create_students.filter
      (fun student => student.name ∉ unity ∧ student.name ∉ focus) := by
  refine List.filter_congr ?_
  intro s hs
  have hmem : s ∈ c.students := List.mem_of_mem_filter hs
  simp [CodeNinjasClass.unity_students, CodeNinjasClass.focus_students, List.mem_filter, hmem]

lemma fold_unity (s : String) : "\n\n" ++ ("Unity:\n" ++ s) = "\n\nUnity:\n" ++ s := by
  rw [← String.append_assoc]
  rfl

lemma fold_jr (s : String) : "\n\n" ++ ("JR:\n" ++ s) = "\n\nJR:\n" ++ s := by
  rw [← String.append_assoc]
  rfl

lemma fold_focus (s : String) : "\n\n" ++ ("Focus:\n" ++ s) = "\n\nFocus:\n" ++ s := by
  rw [← String.append_assoc]
  rfl

lemma fold_impact (s : String) : "\n\n" ++ ("IMPACT:\n" ++ s) = "\n\nIMPACT:\n" ++ s := by
  rw [← String.append_assoc]
  rfl

/-- C4: the published description is the concatenation of a Sensei block, a
Unity block, a JR block and a Focus block — each emitted only when its group
is non-empty — followed by the always-emitted IMPACT block, whose members are
exactly the CREATE-curriculum students belonging to neither the
Unity-selected nor the Focus-selected subgroup, in original CREATE-roster
order. -/
theorem description_blocks_spec :
    ∀ (c : CodeNinjasClass) (unity_student_names focus_student_names : List String),
      buildDescription unity_student_names focus_student_names c =
        (if c.senseis ≠ [] then
          "Sensei:\n" ++ String.intercalate "\n" (sensei_details c.senseis) ++ "\n\n"
        else "") ++
        (if c.unity_students unity_student_names ≠ [] then
          "Unity:\n" ++ String.intercalate "\n"
            ((c.unity_students unity_student_names).map (fun student => student.name)) ++ "\n\n"
        else "") ++
        (if c.jr_students ≠ [] then
          "JR:\n" ++ String.intercalate "\n"
            (c.jr_students.map (fun student => student.name)) ++ "\n\n"
        else "") ++
        (if c.focus_students focus_student_names ≠ [] then
          "Focus:\n" ++ String.intercalate "\n"
            ((c.focus_students focus_student_names).map (fun student => student.name)) ++ "\n\n"
        else "") ++
        ("IMPACT:\n" ++ String.intercalate "\n"
          ((c.create_students.filter (fun student =>
              student.name ∉ unity_student_names ∧ student.name ∉ focus_student_names)).map
            (fun student => student.name))) := by
  intro c u f
  simp only [buildDescription]
  rw [impact_filter_by_names]
  by_cases h1 : c.senseis = [] <;> by_cases h2 : c.unity_students u = [] <;>
    by_cases h3 : c.jr_students = [] <;> by_cases h4 : c.focus_students f = [] <;>
    simp [h1, h2, h3, h4, String.append_assoc, fold_unity, fold_jr, fold_focus, fold_impact]

/-- C9: with no calendar-API failure, `add_classes_to_calendar` creates
exactly one event per merged entry, in order; the summary is the entry's
start time on the 12-hour clock followed by the CREATE and JR student counts;
start and end are the given local date combined with the entry's times in the
fixed `America/Vancouver` time zone; concrete format checks for the 12-hour
clock are included. -/
theorem publish_one_event_per_class_spec :
    (∀ (today : String) (unity_student_names focus_student_names : List String)
        (classes : List CodeNinjasClass),
      add_classes_to_calendar (fun _ => false) today unity_student_names focus_student_names
          classes =
        (classes.map (buildEvent today unity_student_names focus_student_names), false)) ∧
    (∀ (today : String) (unity_student_names focus_student_names : List String)
        (c : CodeNinjasClass),
      (buildEvent today unity_student_names focus_student_names c).summary =
        fmtIMp c.start_time ++ " - " ++ toString c.create_students.length ++ " | " ++
          toString c.jr_students.length ∧
      (buildEvent today unity_student_names focus_student_names c).start_dateTime =
        today ++ "T" ++ fmtHM c.start_time ++ ":00" ∧
      (buildEvent today unity_student_names focus_student_names c).start_timeZone =
        "America/Vancouver" ∧
      (buildEvent today unity_student_names focus_student_names c).end_dateTime =
        today ++ "T" ++ fmtHM c.end_time ++ ":00" ∧
      (buildEvent today unity_student_names focus_student_names c).end_timeZone =
        "America/Vancouver") ∧
    fmtIMp ⟨13, 5⟩ = "01:05PM" ∧ fmtIMp ⟨0, 0⟩ = "12:00AM" ∧ fmtIMp ⟨9, 0⟩ = "09:00AM" := by
  refine ⟨?_, fun _ _ _ _ => ⟨rfl, rfl, rfl, rfl, rfl⟩, rfl, rfl, rfl⟩
  intro today u f classes
  rw [add_classes_to_calendar, insertEvents_spec, firstFailIdx_of_no_fail]
  simp

/-- Counterexample to C8 as stated: with an `HttpError` raised on the second
insert of a two-class invocation, an error is caught (and swallowed) yet the
run has created one event, not zero. -/
theorem publish_partial_events_counterexample :
    (add_classes_to_calendar (fun k => decide (k = 1)) "2025-01-01" [] []
        [⟨⟨9, 0⟩, ⟨10, 0⟩, [], []⟩, ⟨⟨10, 0⟩, ⟨11, 0⟩, [], []⟩]).snd = true ∧
    (add_classes_to_calendar (fun k => decide (k = 1)) "2025-01-01" [] []
        [⟨⟨9, 0⟩, ⟨10, 0⟩, [], []⟩, ⟨⟨10, 0⟩, ⟨11, 0⟩, [], []⟩]).fst.length = 1 :=
  ⟨rfl, rfl⟩

/-- C8 (amended): when an `HttpError` occurs during publishing,
`add_classes_to_calendar` catches it and returns without re-raising (the
error flag is reported, never propagated); the events inserted before the
first failing call remain created and no event at or after the failing call
is created — so a failing run may end with some, but not all, events
created. -/
theorem publish_error_swallowed_spec :
    ∀ (fail : Nat → Bool) (today : String)
      (unity_student_names focus_student_names : List String)
      (classes : List CodeNinjasClass),
      add_classes_to_calendar fail today unity_student_names focus_student_names classes =
        ((classes.take (firstFailIdx fail 0 classes.length)).map
            (buildEvent today unity_student_names focus_student_names),
          decide (firstFailIdx fail 0 classes.length < classes.length)) := by
  intro fail today u f classes
  exact insertEvents_spec fail today u f classes 0

/-- Counterexample to C7 as stated: a session or class constructed with start
time 23:00 and no explicit end time yields no end time at all —
`datetime.time(hour=24, minute=0)` raises `ValueError` — so the end time does
not equal the start time plus one hour there. -/
theorem session_default_end_counterexample :
    Session.init ⟨23, 0⟩ none none none = none ∧
    CodeNinjasClass.init ⟨23, 0⟩ none none none = none :=
  ⟨rfl, rfl⟩

/-- C7 (amended): for every start time whose hour is at most 22, a session or
class constructed with no explicit end time gets end time equal to the start
time plus one hour; for start times with hour 23 the construction itself
fails (Python `ValueError` from `datetime.time(hour=24)`), so no object — and
no end time — results. -/
theorem session_default_end_amended :
    (∀ (h m : Nat), h + 1 ≤ 23 → m ≤ 59 →
      Session.init ⟨h, m⟩ none none none = some ⟨⟨h, m⟩, ⟨h + 1, m⟩, [], []⟩ ∧
      CodeNinjasClass.init ⟨h, m⟩ none none none = some ⟨⟨h, m⟩, ⟨h + 1, m⟩, [], []⟩) ∧
    (∀ m : Nat, Session.init ⟨23, m⟩ none none none = none ∧
      CodeNinjasClass.init ⟨23, m⟩ none none none = none) := by
  constructor
  · intro h m hh hm
    constructor <;> simp [Session.init, CodeNinjasClass.init, mkTime, hh, hm]
  · intro m
    constructor <;> simp [Session.init, CodeNinjasClass.init, mkTime]

/-- Witness for C7 (amended): a 9:30 session or class defaults to the end
time 10:30. -/
theorem session_default_end_witness :
    Session.init ⟨9, 30⟩ none none none = some ⟨⟨9, 30⟩, ⟨10, 30⟩, [], []⟩ ∧
    CodeNinjasClass.init ⟨9, 30⟩ none none none = some ⟨⟨9, 30⟩, ⟨10, 30⟩, [], []⟩ :=
  session_default_end_amended.1 9 30 (by decide) (by decide)

/-- `my_studio.read_data_from_mystudio`, abstracted over an oracle giving the
outcome of the whole scrape body (login through data read) on each trial:
trial `k` either returns the CREATE and JR session lists or raises
`TimeoutException` with some message. On a timeout the function restarts the
entire scrape from login with `attempts - 1` (only while `attempts > 1`), and
re-raises the caught error once only one attempt remains. -/
def read_data_from_mystudio (oracle : Nat → Except String (List Session × List Session))
    (trial : Nat) (attempts : Nat) : Except String (List Session × List Session) :=
  match oracle trial with
  | Except.ok d => Except.ok d
  | Except.error e =>
    if h : attempts > 1 then read_data_from_mystudio oracle (trial + 1) (attempts - 1)
    else Except.error e
termination_by attempts
decreasing_by omega

/-- `homebase.read_data_from_homebase` has no retry wrapper: the outcome of
its single scrape attempt — including a raised `TimeoutException` when no
instructor names or shifts are found — propagates directly to the caller. -/
def read_data_from_homebase (outcome : Except String (List Instructor)) :
    Except String (List Instructor) :=
  outcome

/-- C6: Scraper A (`read_data_from_mystudio`) returns the scraped data as
soon as a trial succeeds; on a timeout with more than one attempt left it
restarts the whole scrape from login with the attempt count decremented; when
every trial times out it raises the error of its final trial after exactly
`attempts` trials (the raise happens once only one attempt remains). Scraper
B (`read_data_from_homebase`) performs no retry and propagates its outcome
unchanged. -/
theorem mystudio_retry_spec :
    (∀ (oracle : Nat → Except String (List Session × List Session))
        (trial attempts : Nat) (d : List Session × List Session),
      oracle trial = Except.ok d →
      read_data_from_mystudio oracle trial attempts = Except.ok d) ∧
    (∀ (oracle : Nat → Except String (List Session × List Session))
        (trial attempts : Nat) (e : String),
      oracle trial = Except.error e → 1 < attempts →
      read_data_from_mystudio oracle trial attempts =
        read_data_from_mystudio oracle (trial + 1) (attempts - 1)) ∧
    (∀ (oracle : Nat → Except String (List Session × List Session)) (msg : Nat → String),
      (∀ k, oracle k = Except.error (msg k)) →
      ∀ (trial n : Nat),
        read_data_from_mystudio oracle trial (n + 1) = Except.error (msg (trial + n))) ∧
    (∀ outcome : Except String (List Instructor),
      read_data_from_homebase outcome = outcome) := by
  refine ⟨?_, ?_, ?_, fun _ => rfl⟩
  · intro oracle trial attempts d h
    rw [read_data_from_mystudio, h]
  · intro oracle trial attempts e h hlt
    conv_lhs => rw [read_data_from_mystudio]
    rw [h]
    show (if _ : attempts > 1 then read_data_from_mystudio oracle (trial + 1) (attempts - 1)
        else Except.error e) = read_data_from_mystudio oracle (trial + 1) (attempts - 1)
    rw [dif_pos hlt]
  · intro oracle msg h trial n
    induction n generalizing trial with
    | zero =>
      rw [read_data_from_mystudio, h trial]
      norm_num
    | succ n ih =>
      conv_lhs => rw [read_data_from_mystudio]
      rw [h trial]
      show (if _ : n + 1 + 1 > 1 then
            read_data_from_mystudio oracle (trial + 1) (n + 1 + 1 - 1)
          else Except.error (msg trial)) = Except.error (msg (trial + (n + 1)))
      rw [dif_pos (by omega)]
      have heq : n + 1 + 1 - 1 = n + 1 := rfl
      have harg : trial + 1 + n = trial + (n + 1) := by omega
      rw [heq, ih (trial + 1), harg]

/-- Witness for C6: an oracle that times out on every trial exhausts a
three-attempt budget and raises the third trial's error, and a Homebase
outcome passes through unchanged. -/
theorem mystudio_retry_witness :
    read_data_from_mystudio (fun k => Except.error (toString k)) 0 3 =
        Except.error (toString 2) ∧
    read_data_from_homebase (Except.error "timed out") = Except.error "timed out" :=
  ⟨mystudio_retry_spec.2.2.1 (fun k => Except.error (toString k)) (fun k => toString k)
      (fun _ => rfl) 0 2,
    mystudio_retry_spec.2.2.2 (Except.error "timed out")⟩

/-- Outcome of one run of `calendar_updater.main`: either the run aborted in
the `except TimeoutException` handler (printed a message and returned before
merge, assignment and publish), or it reached the publish phase and created
the given events. -/
inductive MainResult where
  | timeoutAborted
  | published (events : List Event)
deriving DecidableEq

/-- The calendar events a run created: none when it aborted on timeout. -/
def eventsCreated : MainResult → List Event
  | MainResult.timeoutAborted => []
  | MainResult.published events => events

/-- The evident identification of `school.Session` with
`code_ninjas.CodeNinjasClass` (the two modules declare structurally identical
classes), used where `main` hands the merged sessions to the publisher. -/
def toCodeNinjasClass (s : Session) : CodeNinjasClass :=
  ⟨s.start_time, s.end_time,
    s.students.map (fun st => ⟨st.name, st.curriculum⟩),
    s.instructors.map (fun i => ⟨i.name, i.start_time, i.end_time⟩)⟩

/-- `calendar_updater.main` after settings and credential loading, abstracted
over the outcomes of the two scrapes (each either its data or a propagated
`TimeoutException`) and the publish-phase failure oracle (the Lean name
avoids the reserved entry-point name `main`). `future.result()`
re-raises a scrape's `TimeoutException`; `main` catches it, prints, and
returns before `combine_duplicate_sessions`, `add_instructors_to_sessions`
and the publish call; otherwise it merges, assigns, and publishes. -/
def calendar_updater_main (mystudio_result : Except String (List Session × List Session))
    (homebase_result : Except String (List Instructor))
    (fail : Nat → Bool) (today : String)
    (unity_student_names focus_student_names : List String) : MainResult :=
  match mystudio_result, homebase_result with
  | Except.ok (create_sessions, jr_sessions), Except.ok instructors =>
    let combined_sessions := combine_duplicate_sessions (create_sessions ++ jr_sessions)
    let assigned := add_instructors_to_sessions combined_sessions instructors
    MainResult.published
      (add_classes_to_calendar fail today unity_student_names focus_student_names
        (assigned.map toCodeNinjasClass)).fst
  | _, _ => MainResult.timeoutAborted

/-- C5: if a timeout-class error propagates out of either scrape, `main`
catches it and returns before the merge, assignment and publish phases, so
the run creates no calendar event. -/
theorem main_timeout_aborts_spec :
    ∀ (mystudio_result : Except String (List Session × List Session))
      (homebase_result : Except String (List Instructor))
      (fail : Nat → Bool) (today : String)
      (unity_student_names focus_student_names : List String),
      ((∃ e, mystudio_result = Except.error e) ∨ (∃ e, homebase_result = Except.error e)) →
      calendar_updater_main mystudio_result homebase_result fail today unity_student_names
          focus_student_names = MainResult.timeoutAborted ∧
      eventsCreated (calendar_updater_main mystudio_result homebase_result fail today
          unity_student_names focus_student_names) = [] := by
  intro ms hb fail today u f h
  rcases h with ⟨e, rfl⟩ | ⟨e, rfl⟩
  · exact ⟨rfl, rfl⟩
  · cases ms with
    | error e2 => exact ⟨rfl, rfl⟩
    | ok d =>
      cases d with
      | mk cs js => exact ⟨rfl, rfl⟩

/-- Witness for C5: a concrete run whose MyStudio scrape timed out aborts and
creates no event. -/
theorem main_timeout_aborts_witness :
    calendar_updater_main (Except.error "timed out") (Except.ok []) (fun _ => false)
        "2025-01-01" [] [] = MainResult.timeoutAborted ∧
    eventsCreated (calendar_updater_main (Except.error "timed out") (Except.ok [])
        (fun _ => false) "2025-01-01" [] []) = [] :=
  main_timeout_aborts_spec (Except.error "timed out") (Except.ok []) (fun _ => false)
    "2025-01-01" [] [] (Or.inl ⟨"timed out", rfl⟩)
